import Mathlib

/-!
Verification of the CDX Broker Volume Spike Analyzer
(src/quotemediaapp/cdx_streamlit_app.py) against its specification.

The embedding below translates the program's logic into Lean:
floats become exact rationals (ℚ), pandas DataFrames become lists of
records, and the stateful session/fetch code becomes explicit state
passing.  Display-only concerns (row ordering for presentation,
Streamlit messages) are outside every claim and are noted where the
source performs them.
-/

/-- Arithmetic mean of a list of rationals; pandas `Series.mean()` on the
nonempty series the program takes means of (`groupby` groups are nonempty).
The empty case is given the junk value 0, which the program never hits. -/
def mean : List ℚ → ℚ
  | [] => 0
  | x :: t => (x :: t).sum / (((x :: t).length : ℕ) : ℚ)

/-- Round to the nearest integer, ties to even: Python's `round` on an
exactly represented value.  (Binary floating point representation error is
abstracted away: the embedding computes with exact rationals.) -/
def roundHalfEven (x : ℚ) : ℤ :=
  let f := ⌊x⌋
  let r := x - (f : ℚ)
  if r < 1/2 then f
  else if 1/2 < r then f + 1
  else if f % 2 = 0 then f else f + 1

/-- Python's `round(x, 2)`: two decimal places, ties to even. -/
def round2 (x : ℚ) : ℚ := (roundHalfEven (x * 100) : ℚ) / 100

/-- Maximum of a list of rationals; pandas `Series.max()` on a nonempty
series (junk value 0 for the empty list, never hit by the program). -/
def listMax : List ℚ → ℚ
  | [] => 0
  | x :: xs => xs.foldl max x

/-- One normalized EOD record as built by `fetch_exchange_history` and
tagged with its fetch date at line 281: the fields the detector reads
(`sharevolume`, `close`, `symbol`, `date`); other passthrough fields do
not influence any claim. -/
structure EodRow where
  symbol : String
  date : String
  sharevolume : ℚ
  close : ℚ
deriving DecidableEq

/-- The filter parameters the UI collects (MIN_PRICE, MAX_PRICE,
MIN_SHARES, MIN_PERCENT, MAX_PERCENT), lines 224-239. -/
structure SpikeParams where
  minPrice : ℚ
  maxPrice : ℚ
  minShares : ℚ
  minPercent : ℚ
  maxPercent : ℚ
deriving DecidableEq

/-- A spike-candidate row: the EOD row annotated with `avg_volume` and
`vol_percent` as the source does at lines 328-329 / 355-356. -/
structure SpikeRow where
  row : EodRow
  avg_volume : ℚ
  vol_percent : ℚ
deriving DecidableEq

/-- Line 316 / 343: `((this_vol - avg_vol) / avg_vol) * 100 if avg_vol > 0
else 0`. -/
def volPercentOf (avg thisVol : ℚ) : ℚ :=
  if 0 < avg then ((thisVol - avg) / avg) * 100 else 0

/-- Line 335: `avg_vol = group["sharevolume"].astype(float).mean()` over
all fetched rows of one symbol's group. -/
def meanVolume (group : List EodRow) : ℚ :=
  mean (group.map (·.sharevolume))

/-- Line 338: `max_vol = group["sharevolume"].astype(float).max()`. -/
def maxVolume (group : List EodRow) : ℚ :=
  listMax (group.map (·.sharevolume))

/-- The per-row test of the ranged (multi-day) branch, lines 339-357:
a row is kept iff `this_vol == max_vol`, `this_vol >= min_vol`,
`this_vol <= max_vol_limit`, `MIN_PRICE <= close <= MAX_PRICE` and
`this_vol >= MIN_SHARES`, where `min_vol = avg*(1+MIN_PERCENT/100)` and
`max_vol_limit = avg*(1+MAX_PERCENT/100)`. -/
def rangedFlag (p : SpikeParams) (avg maxVol : ℚ) (r : EodRow) : Option SpikeRow :=
  let thisVol := r.sharevolume
  let volPercent := volPercentOf avg thisVol
  let minVol := avg * (1 + p.minPercent / 100)
  let maxVolLimit := avg * (1 + p.maxPercent / 100)
  if thisVol = maxVol ∧ minVol ≤ thisVol ∧ thisVol ≤ maxVolLimit ∧
      p.minPrice ≤ r.close ∧ r.close ≤ p.maxPrice ∧ p.minShares ≤ thisVol
  then some { row := r, avg_volume := round2 avg, vol_percent := round2 volPercent }
  else none

/-- The ranged branch of the spike loop (lines 333-357) for one symbol's
group: skip the symbol when the mean volume is 0 (line 336), otherwise
keep every row passing `rangedFlag`.  The source first sorts the group by
date (line 334), which only permutes the rows it scans; the final table is
re-sorted for display at line 363, which is presentation and outside the
claims. -/
def rangedSpikes (p : SpikeParams) (group : List EodRow) : List SpikeRow :=
  if meanVolume group = 0 then []
  else group.filterMap (rangedFlag p (meanVolume group) (maxVolume group))

/-- Lines 304-307: the lookback average is the mean share volume over the
rows of the group whose date differs from the selected day
(`group[group['date'] != selected_day_str]`). -/
def lookbackAvg (selectedDay : String) (group : List EodRow) : ℚ :=
  mean ((group.filter (fun r => r.date ≠ selectedDay)).map (·.sharevolume))

/-- The per-row test of the lookback branch, lines 315-330: same filters
as the ranged branch but with no `max_vol` condition. -/
def lookbackFlag (p : SpikeParams) (avg : ℚ) (r : EodRow) : Option SpikeRow :=
  let thisVol := r.sharevolume
  let volPercent := volPercentOf avg thisVol
  let minVol := avg * (1 + p.minPercent / 100)
  let maxVolLimit := avg * (1 + p.maxPercent / 100)
  if minVol ≤ thisVol ∧ thisVol ≤ maxVolLimit ∧
      p.minPrice ≤ r.close ∧ r.close ≤ p.maxPrice ∧ p.minShares ≤ thisVol
  then some { row := r, avg_volume := round2 avg, vol_percent := round2 volPercent }
  else none

/-- The lookback (single-day) branch of the spike loop, lines 301-330,
for one symbol's group: skip when no lookback rows exist (line 305) or
their average volume is 0 (lines 308-309); otherwise evaluate the first
row carrying the selected day (`selected_row.iloc[0]`, lines 311-314).
As in the ranged branch, the source's sort by date (line 302) is stable
and so does not change which selected-day row comes first. -/
def lookbackSpikes (p : SpikeParams) (selectedDay : String) (group : List EodRow) :
    List SpikeRow :=
  if group.filter (fun r => r.date ≠ selectedDay) = [] then []
  else if lookbackAvg selectedDay group = 0 then []
  else
    match (group.filter (fun r => r.date = selectedDay)).head? with
    | none => []
    | some row =>
      match lookbackFlag p (lookbackAvg selectedDay group) row with
      | none => []
      | some s => [s]

/-- The session state held by `QuoteMediaExchangeHistory`: `self.sid`
(none when unset) and `self.last_auth`, the latter kept as a time in
minutes so that `timedelta(minutes=25)` becomes the literal 25. -/
structure Session where
  sid : Option String
  lastAuth : ℚ
deriving DecidableEq

/-- A successful `authenticate` (lines 17-30): stores the sid the auth
endpoint returns and stamps `last_auth` with the current time.  The
claims about the retry contract concern a data upstream that rejects the
session while the auth endpoint itself succeeds, so only the success path
of `authenticate` is modelled. -/
def authenticate (now : ℚ) (newSid : String) : Session :=
  { sid := some newSid, lastAuth := now }

/-- Lines 36-39, `refresh_session`: re-authenticate iff the sid is unset
or the token is strictly older than 25 minutes.  The Bool records whether
`authenticate` was invoked. -/
def refresh_session (now : ℚ) (newSid : String) (s : Session) : Session × Bool :=
  if s.sid = none ∨ 25 < now - s.lastAuth then (authenticate now newSid, true)
  else (s, false)

/-- The `QuoteMediaExchangeHistory` object together with two counters
instrumenting the temporal claims: how many times `authenticate` has run
and how many data requests have been issued. -/
structure QMState where
  session : Session
  authCount : ℕ
  dataCalls : ℕ
deriving DecidableEq

/-- `self.authenticate()` on the object: refresh the session, count the
invocation. -/
def qmAuthenticate (now : ℚ) (newSid : String) (st : QMState) : QMState :=
  { st with session := authenticate now newSid, authCount := st.authCount + 1 }

/-- `self.refresh_session()` on the object (line 42). -/
def qmRefresh (now : ℚ) (newSid : String) (st : QMState) : QMState :=
  match refresh_session now newSid st.session with
  | (s, true) => { st with session := s, authCount := st.authCount + 1 }
  | (_, false) => st

/-- What one data request observes: a parseable payload of normalized
rows, a payload whose `code.name` is `NotAuthorized`, or a non-JSON body.
The upstream is a function of the request index so persistent failure is
the constant function. -/
inductive UpstreamReply (α : Type) where
  | ok (rows : α)
  | notAuthorized
  | unparseable
deriving DecidableEq

/-- The outcome a fetch call surfaces alongside its rows: success, the
`Not authorized` terminal error (line 70 / 124), or the
`invalid response` terminal error (line 61 / 110). -/
inductive FetchOutcome where
  | success
  | notAuthorized
  | invalidResponse
deriving DecidableEq

/-- `fetch_exchange_history(..., _retry=False)`, lines 41-82: refresh the
session, issue the request; any failure is now terminal with an empty
result.  Payload normalization (flattening `eoddata` per item) does not
affect the retry claims, so a parseable payload carries its rows
directly. -/
def fetch_exchange_history_noretry (upstream : ℕ → UpstreamReply (List EodRow))
    (now : ℚ) (newSid : String) (st : QMState) :
    List EodRow × FetchOutcome × QMState :=
  let st1 := qmRefresh now newSid st
  let reply := upstream st1.dataCalls
  let st2 := { st1 with dataCalls := st1.dataCalls + 1 }
  match reply with
  | .unparseable => ([], .invalidResponse, st2)
  | .notAuthorized => ([], .notAuthorized, st2)
  | .ok rows => (rows, .success, st2)

/-- `fetch_exchange_history(..., _retry=True)`, lines 41-82: on an
unparseable body (line 56) or a `NotAuthorized` payload (line 64),
re-authenticate and recurse once with `_retry=False`. -/
def fetch_exchange_history (upstream : ℕ → UpstreamReply (List EodRow))
    (now : ℚ) (newSid : String) (st : QMState) :
    List EodRow × FetchOutcome × QMState :=
  let st1 := qmRefresh now newSid st
  let reply := upstream st1.dataCalls
  let st2 := { st1 with dataCalls := st1.dataCalls + 1 }
  match reply with
  | .unparseable =>
    fetch_exchange_history_noretry upstream now newSid (qmAuthenticate now newSid st2)
  | .notAuthorized =>
    fetch_exchange_history_noretry upstream now newSid (qmAuthenticate now newSid st2)
  | .ok rows => (rows, .success, st2)

/-- One normalized broker-participation row as built by
`fetch_nethouse_summary` (lines 129-148). `to_numeric(...).fillna(0)`
coercion applied downstream is modelled by the fields being rationals
already. -/
structure BrokerRow where
  broker : String
  date : String
  buy_volume : ℚ
  sell_volume : ℚ
  total_volume : ℚ
deriving DecidableEq

/-- The state `fetch_nethouse_summary` touches: the
`st.session_state['qm_obj']` object when present (line 102), plus the
data-request counter. -/
structure NHState where
  qm : Option QMState
  dataCalls : ℕ
deriving DecidableEq

/-- `fetch_nethouse_summary(..., _retry=False)`, lines 84-154: any
failure is terminal with an empty result.  Note the function performs no
session refresh of its own; the sid is a passed-in parameter. -/
def fetch_nethouse_noretry (upstream : ℕ → UpstreamReply (List BrokerRow))
    (st : NHState) : List BrokerRow × FetchOutcome × NHState :=
  let reply := upstream st.dataCalls
  let st1 := { st with dataCalls := st.dataCalls + 1 }
  match reply with
  | .unparseable => ([], .invalidResponse, st1)
  | .notAuthorized => ([], .notAuthorized, st1)
  | .ok rows => (rows, .success, st1)

/-- `fetch_nethouse_summary(..., _retry=True)`, lines 84-154: on a
failure, fetch the `qm_obj` from session state; when present call its
`authenticate` and recurse once with `_retry=False` (lines 102-105 and
116-119), when absent give up with an empty result.  A parseable payload
carries its normalized rows (the zero-activity drop of lines 136-137
happens inside that normalization). -/
def fetch_nethouse_summary (upstream : ℕ → UpstreamReply (List BrokerRow))
    (now : ℚ) (newSid : String) (st : NHState) :
    List BrokerRow × FetchOutcome × NHState :=
  let reply := upstream st.dataCalls
  let st1 := { st with dataCalls := st.dataCalls + 1 }
  match reply with
  | .unparseable =>
    match st1.qm with
    | some q =>
      fetch_nethouse_noretry upstream { st1 with qm := some (qmAuthenticate now newSid q) }
    | none => ([], .invalidResponse, st1)
  | .notAuthorized =>
    match st1.qm with
    | some q =>
      fetch_nethouse_noretry upstream { st1 with qm := some (qmAuthenticate now newSid q) }
    | none => ([], .notAuthorized, st1)
  | .ok rows => (rows, .success, st1)

/-- Lines 379-389, the broker pre-filter of the outlier table: a row is
kept iff its `(symbol, date)` broker report is nonempty and
`(nethouse_df['pct_of_symbol_volume'] >= min_broker_percent).any()`
holds, where the pct column is `buy_volume / sharevolume * 100` when the
row's `sharevolume` is positive and the scalar 0 otherwise. -/
def rowPassesBrokerFilter (nh : String → String → List BrokerRow) (minp : ℚ)
    (r : EodRow) : Bool :=
  let df := nh r.symbol r.date
  if df = [] then false
  else if 0 < r.sharevolume then
    df.any (fun b => decide (minp ≤ b.buy_volume / r.sharevolume * 100))
  else decide (minp ≤ 0)

/-- Line 390: `filtered_outlier_table`, the spike rows surviving the
broker pre-filter; every later attribution view reads this table. -/
def filtered_outlier_table (nh : String → String → List BrokerRow) (minp : ℚ)
    (outliers : List EodRow) : List EodRow :=
  outliers.filter (rowPassesBrokerFilter nh minp)

/-- The fetches issued by the cross-symbol loop of lines 462-474: walk
the `(symbol, date)` pairs, skip a pair already in the cache, otherwise
fetch it and insert its key (the fetched rows are stored even when empty,
line 468; only the keys decide which fetches happen, so only keys are
tracked). -/
def globalFetchCalls : List (String × String) → List (String × String) →
    List (String × String)
  | _, [] => []
  | cache, p :: rest =>
    if p ∈ cache then globalFetchCalls cache rest
    else p :: globalFetchCalls (p :: cache) rest

/-- Every `fetch_nethouse_summary` call of one pass over the rendered
page, as `(symbol, date)` pairs in order: the outlier-table pre-filter
fetches each spike row directly (line 382); when the filtered table is
nonempty the per-symbol summary fetches the selected symbol on each
summary date directly (line 412) and the cross-symbol loop fetches
through the cache (line 466). -/
def runFetchCalls (nh : String → String → List BrokerRow) (minp : ℚ)
    (outliers : List EodRow) (selSymbol : String) (summaryDates : List String)
    (startCache : List (String × String)) : List (String × String) :=
  let filtered := filtered_outlier_table nh minp outliers
  (outliers.map (fun r => (r.symbol, r.date)))
    ++ (if filtered = [] then [] else summaryDates.map (fun d => (selSymbol, d)))
    ++ (if filtered = [] then []
        else globalFetchCalls startCache (filtered.map (fun r => (r.symbol, r.date))))

/-- Occurrences of one `(symbol, date)` pair in a list of fetch calls. -/
def countPair (q : String × String) (l : List (String × String)) : ℕ :=
  (l.filter (fun x => x = q)).length

/-- Lines 422-426: the per-broker aggregation sums one numeric column
over the rows of one broker. -/
def sumBy (rows : List BrokerRow) (b : String) (f : BrokerRow → ℚ) : ℚ :=
  ((rows.filter (fun r => r.broker = b)).map f).sum

/-- Lines 438-441: `pct_of_symbol_volume` for one broker — the broker's
summed `buy_volume` over the symbol's total EOD volume, times 100, when
that total is present and positive, and 0 otherwise (`None` models the
missing `full_df` branch of lines 429-431). -/
def codePct (rows : List BrokerRow) (totalEod : Option ℚ) (b : String) : ℚ :=
  match totalEod with
  | none => 0
  | some t => if 0 < t then sumBy rows b (·.buy_volume) / t * 100 else 0

/-- One row of the aggregated per-symbol broker summary. -/
structure SummaryRow where
  broker : String
  buy_volume : ℚ
  sell_volume : ℚ
  total_volume : ℚ
  pct_of_symbol_volume : ℚ
deriving DecidableEq

/-- Lines 422-448, `broker_summary`: group the unioned broker rows by
broker, sum `buy_volume`, `sell_volume`, `total_volume`, attach
`pct_of_symbol_volume`, and keep the rows with
`pct_of_symbol_volume >= min_broker_percent` (line 444).  `groupby`
orders groups by key and line 446 re-sorts by pct for display; ordering
is presentation and outside the claims, so brokers are listed in first
occurrence order. -/
def broker_summary (rows : List BrokerRow) (totalEod : Option ℚ) (minp : ℚ) :
    List SummaryRow :=
  let summary := ((rows.map (·.broker)).dedup).map (fun b =>
    { broker := b
      buy_volume := sumBy rows b (·.buy_volume)
      sell_volume := sumBy rows b (·.sell_volume)
      total_volume := sumBy rows b (·.total_volume)
      pct_of_symbol_volume := codePct rows totalEod b : SummaryRow })
  summary.filter (fun s => decide (minp ≤ s.pct_of_symbol_volume))

/-- Modelled from the spec: `pctOfSymbolVolumeActiveDays`, which the
specification prescribes for the per-symbol view but which no code in the
source computes — `sum(buyVolume) / eodVolumeOnActiveDays * 100`, where
`eodVolumeOnActiveDays` restricts the symbol's EOD sum to the dates on
which the broker reported nonzero activity; 0 when that restricted sum is
not positive, mirroring the spec's zero-denominator rule for the other
percentage. -/
def pctOfSymbolVolumeActiveDays (eod : List EodRow) (sel : String)
    (rows : List BrokerRow) (b : String) : ℚ :=
  let activeDates := ((rows.filter (fun r =>
    r.broker = b ∧ (r.buy_volume ≠ 0 ∨ r.sell_volume ≠ 0))).map (·.date)).dedup
  let eodVolumeOnActiveDays := ((eod.filter (fun r =>
    r.symbol = sel ∧ r.date ∈ activeDates)).map (·.sharevolume)).sum
  if 0 < eodVolumeOnActiveDays then
    sumBy rows b (·.buy_volume) / eodVolumeOnActiveDays * 100
  else 0

/-- Lines 406-409: the date set of the per-symbol summary — the selected
day alone in single-day mode, the whole calendar range otherwise. -/
def summary_dates (singleDay : Bool) (startDate : String) (dateRange : List String) :
    List String :=
  if singleDay then [startDate] else dateRange

/-- Lines 410-419: the union of the selected symbol's broker reports over
the summary dates, each row tagged with its date (line 414); empty
reports contribute no rows. -/
def all_brokers (nh : String → String → List BrokerRow) (sel : String)
    (dates : List String) : List BrokerRow :=
  (dates.map (fun d => (nh sel d).map (fun b => { b with date := d }))).flatten

/-- Lines 433-437: the denominator of `pct_of_symbol_volume` — the
symbol's EOD `sharevolume` summed over the selected day alone in
single-day mode, and over every row of `full_df` for the symbol
otherwise. -/
def total_symbol_eod_volume (fullDf : List EodRow) (sel : String)
    (singleDay : Bool) (startDate : String) : ℚ :=
  if singleDay then
    ((fullDf.filter (fun r => r.symbol = sel ∧ r.date = startDate)).map
      (·.sharevolume)).sum
  else ((fullDf.filter (fun r => r.symbol = sel)).map (·.sharevolume)).sum

/-- Wide-open filter parameters for concrete evaluations. -/
def pW : SpikeParams :=
  { minPrice := 0, maxPrice := 100, minShares := 0, minPercent := 0, maxPercent := 500 }

/-- A two-day EOD group for one symbol. -/
def gW : List EodRow := [⟨"S", "d1", 100, 1⟩, ⟨"S", "d2", 300, 1⟩]

/-- The one spike row `rangedSpikes pW gW` produces: mean 200, max 300,
percent (300-200)/200*100 = 50. -/
def sW : SpikeRow := ⟨⟨"S", "d2", 300, 1⟩, 200, 50⟩

/-- A broker feed: every `(symbol, date)` report is one broker buying 50. -/
def nhW : String → String → List BrokerRow := fun _ _ => [⟨"B", "d", 50, 0, 50⟩]

/-- One spike-candidate row with share volume 100. -/
def outliersW : List EodRow := [⟨"A", "d", 100, 1⟩]

/-- Two EOD days of volume 100 each for symbol S: window total 200. -/
def eodC1 : List EodRow := [⟨"S", "d1", 100, 1⟩, ⟨"S", "d2", 100, 1⟩]

/-- Broker A bought 50 on d1 only: 25 percent of the window total but 50
percent of its active-day volume. -/
def rowsC1 : List BrokerRow := [⟨"A", "d1", 50, 0, 50⟩]

/-- A one-row EOD table whose dates all lie in the range d1..d2. -/
def fullDfW : List EodRow := [⟨"S", "d1", 100, 1⟩]

/-- A QuoteMedia object whose session token is fresh (age 0 at time 0). -/
def stFresh : QMState :=
  { session := { sid := some "t", lastAuth := 0 }, authCount := 0, dataCalls := 0 }

theorem mean_nonneg (xs : List ℚ) (h : ∀ x ∈ xs, 0 ≤ x) : 0 ≤ mean xs := by
  match xs with
  | [] => simp [mean]
  | x :: t =>
    apply div_nonneg (List.sum_nonneg h)
    positivity

/-- The source's volume test `avg*(1+mp/100) <= v` is the spec's
`mp <= volPercent` when the average is positive. -/
theorem minVol_le_iff (avg v mp : ℚ) (h : 0 < avg) :
    avg * (1 + mp / 100) ≤ v ↔ mp ≤ ((v - avg) / avg) * 100 := by
  rw [div_mul_eq_mul_div, le_div_iff₀ h]
  constructor <;> intro h1 <;> nlinarith

/-- The source's volume cap `v <= avg*(1+mp/100)` is the spec's
`volPercent <= mp` when the average is positive. -/
theorem le_maxVol_iff (avg v mp : ℚ) (h : 0 < avg) :
    v ≤ avg * (1 + mp / 100) ↔ ((v - avg) / avg) * 100 ≤ mp := by
  rw [div_mul_eq_mul_div, div_le_iff₀ h]
  constructor <;> intro h1 <;> nlinarith

/-- The broker pre-filter's percentage test against a positive day
volume, restated on the buy volume itself. -/
theorem pct_le_iff (minp buy v : ℚ) (hv : 0 < v) :
    minp ≤ buy / v * 100 ↔ minp / 100 * v ≤ buy := by
  rw [div_mul_eq_mul_div, le_div_iff₀ hv, div_mul_eq_mul_div,
    div_le_iff₀ (by norm_num : (0:ℚ) < 100)]

theorem rangedFlag_eq_some_iff (p : SpikeParams) (avg maxVol : ℚ) (r : EodRow)
    (s : SpikeRow) :
    rangedFlag p avg maxVol r = some s ↔
      ((r.sharevolume = maxVol ∧ avg * (1 + p.minPercent / 100) ≤ r.sharevolume ∧
        r.sharevolume ≤ avg * (1 + p.maxPercent / 100) ∧
        p.minPrice ≤ r.close ∧ r.close ≤ p.maxPrice ∧ p.minShares ≤ r.sharevolume) ∧
       s = { row := r, avg_volume := round2 avg,
             vol_percent := round2 (volPercentOf avg r.sharevolume) }) := by
  simp only [rangedFlag]
  split
  · rename_i hc
    simp only [Option.some.injEq]
    exact ⟨fun hs => ⟨hc, hs.symm⟩, fun h1 => h1.2.symm⟩
  · rename_i hc
    constructor
    · intro h1; exact absurd h1 (by simp)
    · intro h1; exact absurd h1.1 hc

theorem lookbackFlag_eq_some_iff (p : SpikeParams) (avg : ℚ) (r : EodRow)
    (s : SpikeRow) :
    lookbackFlag p avg r = some s ↔
      ((avg * (1 + p.minPercent / 100) ≤ r.sharevolume ∧
        r.sharevolume ≤ avg * (1 + p.maxPercent / 100) ∧
        p.minPrice ≤ r.close ∧ r.close ≤ p.maxPrice ∧ p.minShares ≤ r.sharevolume) ∧
       s = { row := r, avg_volume := round2 avg,
             vol_percent := round2 (volPercentOf avg r.sharevolume) }) := by
  simp only [lookbackFlag]
  split
  · rename_i hc
    simp only [Option.some.injEq]
    exact ⟨fun hs => ⟨hc, hs.symm⟩, fun h1 => h1.2.symm⟩
  · rename_i hc
    constructor
    · intro h1; exact absurd h1 (by simp)
    · intro h1; exact absurd h1.1 hc

theorem length_filterMap_le_length_filter {α β : Type} (f : α → Option β)
    (q : α → Bool) (h : ∀ a, (f a).isSome → q a) :
    ∀ l : List α, (l.filterMap f).length ≤ (l.filter q).length := by
  intro l
  induction l with
  | nil => simp
  | cons a t ih =>
    rw [List.filterMap_cons, List.filter_cons]
    cases hfa : f a with
    | none =>
      cases hq : q a <;> simp only [hq, if_true, if_false, cond_true, cond_false] <;>
        first
          | exact ih
          | exact le_trans ih (by simp)
    | some b =>
      have hq := h a (by rw [hfa]; rfl)
      simp only [hq, if_true, cond_true, List.length_cons]
      exact Nat.succ_le_succ ih

theorem countPair_append (q : String × String) (l1 l2 : List (String × String)) :
    countPair q (l1 ++ l2) = countPair q l1 + countPair q l2 := by
  simp [countPair, List.filter_append]

theorem countPair_cons (q a : String × String) (t : List (String × String)) :
    countPair q (a :: t) = (if a = q then 1 else 0) + countPair q t := by
  unfold countPair
  rw [List.filter_cons]
  by_cases h : a = q <;> simp [h, Nat.add_comm]

theorem countPair_eq_zero (q : String × String) (l : List (String × String))
    (h : q ∉ l) : countPair q l = 0 := by
  induction l with
  | nil => simp [countPair]
  | cons a t ih =>
    have hq : ¬ (a = q) := fun e => h (by rw [← e]; exact List.mem_cons_self a t)
    rw [countPair_cons, if_neg hq, ih (fun e => h (List.mem_cons_of_mem a e))]

theorem countPair_le_one_of_nodup (q : String × String) (l : List (String × String))
    (h : l.Nodup) : countPair q l ≤ 1 := by
  induction l with
  | nil => simp [countPair]
  | cons a t ih =>
    obtain ⟨hat, ht⟩ := List.nodup_cons.mp h
    rw [countPair_cons]
    by_cases ha : a = q
    · subst ha
      rw [if_pos rfl, countPair_eq_zero a t hat]
    · rw [if_neg ha, Nat.zero_add]
      exact ih ht

theorem globalFetchCalls_countPair (l : List (String × String)) :
    ∀ (cache : List (String × String)) (q : String × String),
      (q ∈ cache → countPair q (globalFetchCalls cache l) = 0) ∧
      countPair q (globalFetchCalls cache l) ≤ 1 := by
  induction l with
  | nil => intro cache q; simp [globalFetchCalls, countPair]
  | cons p rest ih =>
    intro cache q
    by_cases hp : p ∈ cache
    · rw [globalFetchCalls, if_pos hp]
      exact ih cache q
    · rw [globalFetchCalls, if_neg hp]
      constructor
      · intro hq
        have hpq : ¬ (p = q) := fun e => hp (e ▸ hq)
        rw [countPair_cons, if_neg hpq, Nat.zero_add]
        exact (ih (p :: cache) q).1 (List.mem_cons_of_mem p hq)
      · rw [countPair_cons]
        by_cases hpq : p = q
        · rw [if_pos hpq,
            (ih (p :: cache) q).1 (hpq ▸ List.mem_cons_self p cache)]
        · rw [if_neg hpq, Nat.zero_add]
          exact (ih (p :: cache) q).2

/-- Changing only the selected day's rows leaves the lookback rows (the
rows of every other date) untouched. -/
theorem filter_map_selected (d : String) (u : EodRow → ℚ) (g : List EodRow) :
    (g.map (fun r => if r.date = d then { r with sharevolume := u r } else r)).filter
      (fun r => r.date ≠ d) = g.filter (fun r => r.date ≠ d) := by
  induction g with
  | nil => rfl
  | cons r t ih =>
    by_cases hr : r.date = d <;> simp [hr] <;> simpa using ih

/-- C4: in ranged mode a day is flagged iff its share volume equals the
series maximum, the mean volume over all fetched days (including the
evaluated day) is positive, the exact volume percent lies between
minPercent and maxPercent, the close lies between minPrice and maxPrice,
and the share volume is at least minShares; consequently a day strictly
below the maximum is never flagged and at most as many days are flagged
as are tied for the maximum.  (Volumes are nonnegative, as the upstream's
data model guarantees.) -/
theorem rangedSpikes_flag_iff (p : SpikeParams) (g : List EodRow)
    (hnn : ∀ r ∈ g, 0 ≤ r.sharevolume) :
    (∀ r ∈ g,
      ((∃ s ∈ rangedSpikes p g, s.row = r) ↔
        (r.sharevolume = maxVolume g ∧ 0 < meanVolume g ∧
          p.minPercent ≤ ((r.sharevolume - meanVolume g) / meanVolume g) * 100 ∧
          ((r.sharevolume - meanVolume g) / meanVolume g) * 100 ≤ p.maxPercent ∧
          p.minPrice ≤ r.close ∧ r.close ≤ p.maxPrice ∧
          p.minShares ≤ r.sharevolume))) ∧
    (∀ s ∈ rangedSpikes p g, s.row.sharevolume = maxVolume g) ∧
    (rangedSpikes p g).length ≤
      (g.filter (fun r => decide (r.sharevolume = maxVolume g))).length := by
  have h0 : 0 ≤ meanVolume g := by
    apply mean_nonneg
    intro x hx
    obtain ⟨r, hr, rfl⟩ := List.mem_map.mp hx
    exact hnn r hr
  by_cases hz : meanVolume g = 0
  · refine ⟨?_, ?_, ?_⟩
    · intro r hr
      rw [rangedSpikes, if_pos hz]
      constructor
      · rintro ⟨s, hs, -⟩
        exact absurd hs (List.not_mem_nil s)
      · rintro ⟨-, hpos, -⟩
        rw [hz] at hpos
        exact absurd hpos (lt_irrefl 0)
    · intro s hs
      rw [rangedSpikes, if_pos hz] at hs
      exact absurd hs (List.not_mem_nil s)
    · rw [rangedSpikes, if_pos hz]
      simp
  · have hpos : 0 < meanVolume g := lt_of_le_of_ne h0 (Ne.symm hz)
    refine ⟨?_, ?_, ?_⟩
    · intro r hr
      rw [rangedSpikes, if_neg hz]
      constructor
      · rintro ⟨s, hs, hrow⟩
        obtain ⟨a, ha, hfa⟩ := List.mem_filterMap.mp hs
        obtain ⟨hc, hseq⟩ := (rangedFlag_eq_some_iff p _ _ a s).mp hfa
        have har : a = r := by rw [hseq] at hrow; exact hrow
        subst har
        exact ⟨hc.1, hpos, (minVol_le_iff _ _ _ hpos).mp hc.2.1,
          (le_maxVol_iff _ _ _ hpos).mp hc.2.2.1, hc.2.2.2.1, hc.2.2.2.2.1,
          hc.2.2.2.2.2⟩
      · rintro ⟨hmax, -, hmin, hmaxp, hp1, hp2, hsh⟩
        refine ⟨_, List.mem_filterMap.mpr
          ⟨r, hr, (rangedFlag_eq_some_iff p _ _ r _).mpr
            ⟨⟨hmax, (minVol_le_iff _ _ _ hpos).mpr hmin,
              (le_maxVol_iff _ _ _ hpos).mpr hmaxp, hp1, hp2, hsh⟩, rfl⟩⟩, rfl⟩
    · intro s hs
      rw [rangedSpikes, if_neg hz] at hs
      obtain ⟨a, ha, hfa⟩ := List.mem_filterMap.mp hs
      obtain ⟨hc, hseq⟩ := (rangedFlag_eq_some_iff p _ _ a s).mp hfa
      rw [hseq]
      exact hc.1
    · rw [rangedSpikes, if_neg hz]
      apply length_filterMap_le_length_filter
      intro a ha
      cases hfa : rangedFlag p (meanVolume g) (maxVolume g) a with
      | none => rw [hfa] at ha; exact absurd ha (by simp)
      | some s =>
        obtain ⟨hc, -⟩ := (rangedFlag_eq_some_iff p _ _ a s).mp hfa
        simp [hc.1]

/-- Witness for C4 at a concrete input: the two-day group with volumes
100 and 300 under wide-open filters. -/
theorem rangedSpikes_flag_iff_witness :
    (rangedSpikes pW gW).length ≤
      (gW.filter (fun r => decide (r.sharevolume = maxVolume gW))).length :=
  (rangedSpikes_flag_iff pW gW (by norm_num [gW])).2.2

/-- C5: in lookback mode the baseline average is computed only from the
rows whose date is not the selected day, so it is invariant both to any
change of the selected day's share volume and to removing the selected
day's rows altogether. -/
theorem lookbackAvg_selected_day_invariant (d : String) (g : List EodRow)
    (u : EodRow → ℚ) :
    lookbackAvg d (g.map (fun r =>
        if r.date = d then { r with sharevolume := u r } else r)) =
      lookbackAvg d g ∧
    lookbackAvg d (g.filter (fun r => r.date ≠ d)) = lookbackAvg d g := by
  constructor
  · unfold lookbackAvg
    rw [filter_map_selected]
  · unfold lookbackAvg
    rw [List.filter_filter]
    simp

/-- C7: a symbol whose baseline average volume is 0 yields no spike
candidate, in ranged and in lookback mode, and conversely any yielded
candidate witnesses a nonzero baseline, so the percent division never
sees a zero denominator. -/
theorem zero_avg_no_candidate (p : SpikeParams) (d : String) (g : List EodRow) :
    (meanVolume g = 0 → rangedSpikes p g = []) ∧
    (lookbackAvg d g = 0 → lookbackSpikes p d g = []) ∧
    (∀ s ∈ rangedSpikes p g, meanVolume g ≠ 0) ∧
    (∀ s ∈ lookbackSpikes p d g, lookbackAvg d g ≠ 0) := by
  refine ⟨fun h => by rw [rangedSpikes, if_pos h], fun h => ?_, ?_, ?_⟩
  · rw [lookbackSpikes]
    split <;> simp_all
  · intro s hs hz
    rw [rangedSpikes, if_pos hz] at hs
    exact absurd hs (List.not_mem_nil s)
  · intro s hs hz
    rw [lookbackSpikes] at hs
    split at hs <;> simp_all

/-- C6: every emitted candidate, in either mode, records as `vol_percent`
exactly `((shareVolume - avgVolume) / avgVolume) * 100` rounded to two
decimals, with the baseline the mode's own mean (all fetched days in
ranged mode, the non-selected days in lookback mode). -/
theorem volPercent_formula (p : SpikeParams) (d : String) (g : List EodRow)
    (hnn : ∀ r ∈ g, 0 ≤ r.sharevolume) :
    (∀ s ∈ rangedSpikes p g,
      s.vol_percent =
        round2 (((s.row.sharevolume - meanVolume g) / meanVolume g) * 100)) ∧
    (∀ s ∈ lookbackSpikes p d g,
      s.vol_percent =
        round2 (((s.row.sharevolume - lookbackAvg d g) / lookbackAvg d g) * 100)) := by
  have h0 : 0 ≤ meanVolume g := by
    apply mean_nonneg
    intro x hx
    obtain ⟨r, hr, rfl⟩ := List.mem_map.mp hx
    exact hnn r hr
  have h0' : 0 ≤ lookbackAvg d g := by
    apply mean_nonneg
    intro x hx
    obtain ⟨r, hr, rfl⟩ := List.mem_map.mp hx
    exact hnn r (List.mem_filter.mp hr).1
  constructor
  · intro s hs
    by_cases hz : meanVolume g = 0
    · rw [rangedSpikes, if_pos hz] at hs
      exact absurd hs (List.not_mem_nil s)
    · have hpos : 0 < meanVolume g := lt_of_le_of_ne h0 (Ne.symm hz)
      rw [rangedSpikes, if_neg hz] at hs
      obtain ⟨a, ha, hfa⟩ := List.mem_filterMap.mp hs
      obtain ⟨-, hseq⟩ := (rangedFlag_eq_some_iff p _ _ a s).mp hfa
      rw [hseq]
      simp only [volPercentOf, if_pos hpos]
  · intro s hs
    rw [lookbackSpikes] at hs
    split at hs
    · exact absurd hs (List.not_mem_nil s)
    · split at hs
      · exact absurd hs (List.not_mem_nil s)
      · rename_i hz
        split at hs
        · exact absurd hs (List.not_mem_nil s)
        · rename_i row hrow
          split at hs
          · exact absurd hs (List.not_mem_nil s)
          · rename_i s2 hflag
            have hpos : 0 < lookbackAvg d g := lt_of_le_of_ne h0' (Ne.symm hz)
            obtain ⟨-, hseq⟩ := (lookbackFlag_eq_some_iff p _ row s2).mp hflag
            have hss : s = s2 := List.mem_singleton.mp hs
            subst hss
            rw [hseq]
            simp only [volPercentOf, if_pos hpos]

/-- Witness for C6 at a concrete input: the candidate produced by the
two-day group with volumes 100 and 300 records `vol_percent` 50. -/
theorem volPercent_formula_witness :
    sW.vol_percent =
      round2 (((sW.row.sharevolume - meanVolume gW) / meanVolume gW) * 100) :=
  (volPercent_formula pW "x" gW (by norm_num [gW])).1 sW (by
    norm_num [rangedSpikes, rangedFlag, meanVolume, maxVolume, mean, listMax,
      volPercentOf, round2, roundHalfEven, pW, gW, sW, List.filterMap])

/-- C1 (amended): in the per-symbol attribution view an aggregated broker
row is retained exactly when its single `pct_of_symbol_volume` meets
`minBrokerPercent`; the source computes no active-days percentage, so
only that one threshold decides retention. -/
theorem broker_summary_retention_iff (rows : List BrokerRow) (totalEod : Option ℚ)
    (minp : ℚ) (b : String) :
    ((∃ s ∈ broker_summary rows totalEod minp, s.broker = b) ↔
      (b ∈ rows.map (·.broker) ∧ minp ≤ codePct rows totalEod b)) := by
  simp only [broker_summary]
  constructor
  · rintro ⟨s, hs, hb⟩
    rw [List.mem_filter] at hs
    obtain ⟨hmem, hpct⟩ := hs
    obtain ⟨b2, hb2, rfl⟩ := List.mem_map.mp hmem
    subst hb
    exact ⟨List.mem_dedup.mp hb2, by simpa using hpct⟩
  · rintro ⟨hmem, hpct⟩
    exact ⟨_, List.mem_filter.mpr
      ⟨List.mem_map.mpr ⟨b, List.mem_dedup.mpr hmem, rfl⟩, by simpa using hpct⟩, rfl⟩

/-- Counterexample to C1 as stated: broker A buys 50 of a 200-share
two-day window but is active only on the 100-share day d1, so its
window percentage is 25 while its active-days percentage is 50; at
`minBrokerPercent = 40` the claimed inclusive-or retention would keep
the row, yet `broker_summary` drops it. -/
theorem broker_summary_dual_threshold_cex :
    ¬ ((∃ s ∈ broker_summary rowsC1 (some 200) 40, s.broker = "A") ↔
       (40 ≤ codePct rowsC1 (some 200) "A" ∨
        40 ≤ pctOfSymbolVolumeActiveDays eodC1 "S" rowsC1 "A")) := by
  intro hiff
  have hactive50 : pctOfSymbolVolumeActiveDays eodC1 "S" rowsC1 "A" = 50 := by
    simp [pctOfSymbolVolumeActiveDays, rowsC1, eodC1, sumBy, List.filter_cons,
      List.dedup_cons_of_not_mem]
  have hactive : (40:ℚ) ≤ pctOfSymbolVolumeActiveDays eodC1 "S" rowsC1 "A" := by
    rw [hactive50]
    norm_num
  obtain ⟨s, hs, -⟩ := hiff.mpr (Or.inr hactive)
  have hempty : broker_summary rowsC1 (some 200) 40 = [] := by
    simp [broker_summary, rowsC1, codePct, sumBy, List.filter_cons,
      List.dedup_cons_of_not_mem]
    norm_num
  rw [hempty] at hs
  exact absurd hs (List.not_mem_nil s)

/-- C2 (amended): only the cross-symbol global view consults the
`(symbol, date)` cache — within it each pair is fetched at most once, and
empty results are cached like any other — while the outlier-table
pre-filter and the per-symbol summary call the broker fetcher directly,
so over one pass a pair can be fetched up to three times (once per
view). -/
theorem broker_fetch_cache_bound (nh : String → String → List BrokerRow)
    (minp : ℚ) (outliers : List EodRow) (selSymbol : String)
    (summaryDates : List String) (q : String × String)
    (h1 : (outliers.map (fun r => (r.symbol, r.date))).Nodup)
    (h2 : summaryDates.Nodup) :
    countPair q (globalFetchCalls []
      ((filtered_outlier_table nh minp outliers).map (fun r => (r.symbol, r.date)))) ≤ 1 ∧
    countPair q (runFetchCalls nh minp outliers selSymbol summaryDates []) ≤ 3 := by
  refine ⟨(globalFetchCalls_countPair _ [] q).2, ?_⟩
  simp only [runFetchCalls]
  rw [countPair_append, countPair_append]
  have c1 : countPair q (outliers.map fun r => (r.symbol, r.date)) ≤ 1 :=
    countPair_le_one_of_nodup q _ h1
  have c2 : countPair q (if filtered_outlier_table nh minp outliers = [] then []
      else summaryDates.map (fun dd => (selSymbol, dd))) ≤ 1 := by
    split
    · simp [countPair]
    · exact countPair_le_one_of_nodup q _
        (h2.map (fun a b e => congrArg Prod.snd e))
  have c3 : countPair q (if filtered_outlier_table nh minp outliers = [] then []
      else globalFetchCalls []
        ((filtered_outlier_table nh minp outliers).map (fun r => (r.symbol, r.date)))) ≤ 1 := by
    split
    · simp [countPair]
    · exact (globalFetchCalls_countPair _ [] q).2
  omega

/-- Witness for C2's amended bound at the concrete one-row run. -/
theorem broker_fetch_cache_bound_witness :
    countPair ("A", "d") (globalFetchCalls []
      ((filtered_outlier_table nhW 10 outliersW).map (fun r => (r.symbol, r.date)))) ≤ 1 ∧
    countPair ("A", "d") (runFetchCalls nhW 10 outliersW "A" ["d"] []) ≤ 3 :=
  broker_fetch_cache_bound nhW 10 outliersW "A" ["d"] ("A", "d")
    (by simp [outliersW]) (by simp)

/-- Counterexample to C2 as stated: one spike row (A, d) passes the
broker pre-filter, the summary views symbol A on date d, and the global
view starts with an empty cache, so the broker fetcher is invoked three
times for the single pair (A, d) — not at most once. -/
theorem broker_fetch_once_cex :
    ¬ (countPair ("A", "d") (runFetchCalls nhW 10 outliersW "A" ["d"] []) ≤ 1) := by
  have h3 : countPair ("A", "d") (runFetchCalls nhW 10 outliersW "A" ["d"] []) = 3 := by
    simp [runFetchCalls, filtered_outlier_table, rowPassesBrokerFilter, nhW,
      outliersW, globalFetchCalls, countPair, List.filter_cons]
    norm_num
  omega

/-- C3 (amended): against an upstream that persistently signals
`NotAuthorized` or persistently returns an unparseable body, each
fetcher performs exactly one re-authentication-and-retry cycle —
exactly two data requests, never a third — and terminates with an empty
result, surfacing the `NotAuthorized` outcome in the former case and
the invalid-response outcome in the latter.  Authentication, however,
is not invoked exactly twice on every call: the exchange-history
fetcher invokes it twice when its session was absent or stale at entry
but only once when it was still fresh; the nethouse fetcher performs no
refresh of its own and (when a session object exists) invokes it
exactly once. -/
theorem fetch_persistent_failure_retry_bound (now : ℚ) (newSid : String)
    (st : QMState) (nst : NHState) (q : QMState) :
    ((fetch_exchange_history (fun _ => .notAuthorized) now newSid st).1 = [] ∧
     (fetch_exchange_history (fun _ => .notAuthorized) now newSid st).2.1 =
       FetchOutcome.notAuthorized ∧
     (fetch_exchange_history (fun _ => .notAuthorized) now newSid st).2.2.dataCalls =
       st.dataCalls + 2 ∧
     (fetch_exchange_history (fun _ => .notAuthorized) now newSid st).2.2.authCount =
       st.authCount +
         (if st.session.sid = none ∨ 25 < now - st.session.lastAuth then 2 else 1)) ∧
    ((fetch_exchange_history (fun _ => .unparseable) now newSid st).1 = [] ∧
     (fetch_exchange_history (fun _ => .unparseable) now newSid st).2.1 =
       FetchOutcome.invalidResponse ∧
     (fetch_exchange_history (fun _ => .unparseable) now newSid st).2.2.dataCalls =
       st.dataCalls + 2 ∧
     (fetch_exchange_history (fun _ => .unparseable) now newSid st).2.2.authCount =
       st.authCount +
         (if st.session.sid = none ∨ 25 < now - st.session.lastAuth then 2 else 1)) ∧
    (nst.qm = some q →
      ((fetch_nethouse_summary (fun _ => .notAuthorized) now newSid nst).1 = [] ∧
       (fetch_nethouse_summary (fun _ => .notAuthorized) now newSid nst).2.1 =
         FetchOutcome.notAuthorized ∧
       (fetch_nethouse_summary (fun _ => .notAuthorized) now newSid nst).2.2.dataCalls =
         nst.dataCalls + 2 ∧
       (fetch_nethouse_summary (fun _ => .notAuthorized) now newSid nst).2.2.qm =
         some (qmAuthenticate now newSid q))) ∧
    (nst.qm = some q →
      ((fetch_nethouse_summary (fun _ => .unparseable) now newSid nst).1 = [] ∧
       (fetch_nethouse_summary (fun _ => .unparseable) now newSid nst).2.1 =
         FetchOutcome.invalidResponse ∧
       (fetch_nethouse_summary (fun _ => .unparseable) now newSid nst).2.2.dataCalls =
         nst.dataCalls + 2 ∧
       (fetch_nethouse_summary (fun _ => .unparseable) now newSid nst).2.2.qm =
         some (qmAuthenticate now newSid q))) := by
  refine ⟨?_, ?_, ?_, ?_⟩
  · by_cases h : st.session.sid = none ∨ 25 < now - st.session.lastAuth
    · simp [fetch_exchange_history, fetch_exchange_history_noretry, qmRefresh,
        refresh_session, qmAuthenticate, authenticate, h, Option.some_ne_none,
        (show ¬ ((25:ℚ) < 0) by norm_num)]
    · simp [fetch_exchange_history, fetch_exchange_history_noretry, qmRefresh,
        refresh_session, qmAuthenticate, authenticate, h, Option.some_ne_none,
        (show ¬ ((25:ℚ) < 0) by norm_num)]
  · by_cases h : st.session.sid = none ∨ 25 < now - st.session.lastAuth
    · simp [fetch_exchange_history, fetch_exchange_history_noretry, qmRefresh,
        refresh_session, qmAuthenticate, authenticate, h, Option.some_ne_none,
        (show ¬ ((25:ℚ) < 0) by norm_num)]
    · simp [fetch_exchange_history, fetch_exchange_history_noretry, qmRefresh,
        refresh_session, qmAuthenticate, authenticate, h, Option.some_ne_none,
        (show ¬ ((25:ℚ) < 0) by norm_num)]
  · intro hq
    simp [fetch_nethouse_summary, fetch_nethouse_noretry, hq]
  · intro hq
    simp [fetch_nethouse_summary, fetch_nethouse_noretry, hq]

/-- Counterexample to C3 as stated: with a session still fresh at entry
(token issued at the current instant), the persistent-`NotAuthorized`
fetch invokes authentication only once — the initial `refresh_session`
re-authenticates nothing — not exactly twice. -/
theorem fetch_auth_twice_cex :
    ¬ ((fetch_exchange_history (fun _ => UpstreamReply.notAuthorized) 0 "n"
        stFresh).2.2.authCount = 2) := by
  have h1 : (fetch_exchange_history (fun _ => UpstreamReply.notAuthorized) 0 "n"
      stFresh).2.2.authCount = 1 := by
    simp [fetch_exchange_history, fetch_exchange_history_noretry, qmRefresh,
      refresh_session, qmAuthenticate, authenticate, stFresh, Option.some_ne_none,
      (show ¬ ((25:ℚ) < 0) by norm_num), (show ¬ ((25:ℚ) < 0 - 0) by norm_num)]
  omega

/-- C8 (amended): `refresh_session` re-authenticates exactly when the
stored token is absent or strictly older than 25 minutes, and otherwise
returns the cached session unchanged; in particular a token aged exactly
25 minutes is treated as still fresh and is returned unchanged — the
code's strict `>` comparison diverges at the boundary from the validity
rule `now - issuedAt < 25 minutes`. -/
theorem refresh_session_threshold (now : ℚ) (newSid : String) (s : Session) :
    ((refresh_session now newSid s).2 = true ↔
      (s.sid = none ∨ 25 < now - s.lastAuth)) ∧
    ((refresh_session now newSid s).2 = false → (refresh_session now newSid s).1 = s) ∧
    (∀ i : String, s.sid = some i → now - s.lastAuth = 25 →
      refresh_session now newSid s = (s, false)) := by
  unfold refresh_session
  by_cases h : s.sid = none ∨ 25 < now - s.lastAuth
  · rw [if_pos h]
    refine ⟨by simp [h], by simp, ?_⟩
    intro i hi hage
    rcases h with h | h
    · rw [hi] at h
      exact absurd h (by simp)
    · rw [hage] at h
      exact absurd h (lt_irrefl 25)
  · rw [if_neg h]
    exact ⟨by simp [h], fun _ => rfl, fun i hi hage => rfl⟩

/-- Counterexample to C8 as stated: a token aged exactly 25 minutes does
not trigger re-authentication — `refresh_session` reports no
authentication happened. -/
theorem refresh_session_exact_25_cex :
    ¬ ((refresh_session 25 "n" { sid := some "t", lastAuth := 0 }).2 = true) := by
  simp [refresh_session]

/-- C9: a spike-candidate row with positive day volume reaches the
displayed (filtered) outlier table — and hence all downstream
attribution views — exactly when its day's broker report is nonempty and
some broker's buy volume is at least `minBrokerPercent` percent of the
day's share volume; rows failing the pre-filter are dropped. -/
theorem outlier_broker_prefilter_iff (nh : String → String → List BrokerRow)
    (minp : ℚ) (outliers : List EodRow) (r : EodRow)
    (hv : 0 < r.sharevolume) :
    (r ∈ filtered_outlier_table nh minp outliers ↔
      (r ∈ outliers ∧ nh r.symbol r.date ≠ [] ∧
        ∃ b ∈ nh r.symbol r.date, minp / 100 * r.sharevolume ≤ b.buy_volume)) := by
  have key : rowPassesBrokerFilter nh minp r = true ↔
      (nh r.symbol r.date ≠ [] ∧
        ∃ b ∈ nh r.symbol r.date, minp / 100 * r.sharevolume ≤ b.buy_volume) := by
    simp only [rowPassesBrokerFilter]
    by_cases hdf : nh r.symbol r.date = []
    · rw [if_pos hdf]
      simp [hdf]
    · rw [if_neg hdf, if_pos hv, List.any_eq_true]
      constructor
      · rintro ⟨b, hb, hle⟩
        exact ⟨hdf, b, hb, (pct_le_iff _ _ _ hv).mp (by simpa using hle)⟩
      · rintro ⟨-, b, hb, hle⟩
        exact ⟨b, hb, by simpa using (pct_le_iff _ _ _ hv).mpr hle⟩
  rw [filtered_outlier_table, List.mem_filter, key]

/-- Witness for C9: the one-row outlier table with day volume 100 and a
broker buying 50 at threshold 10 percent. -/
theorem outlier_broker_prefilter_witness :
    ((⟨"A", "d", 100, 1⟩ : EodRow) ∈ filtered_outlier_table nhW 10 outliersW ↔
      ((⟨"A", "d", 100, 1⟩ : EodRow) ∈ outliersW ∧ nhW "A" "d" ≠ [] ∧
        ∃ b ∈ nhW "A" "d", (10:ℚ) / 100 * 100 ≤ b.buy_volume)) :=
  outlier_broker_prefilter_iff nhW 10 outliersW ⟨"A", "d", 100, 1⟩ (by norm_num)

/-- C10: the per-symbol attribution view unions broker rows over exactly
the summary date set — every calendar day of the range in multi-day
mode, only the selected day in single-day mode — and its percentage
denominator is the symbol's EOD share volume summed over that same date
set (given that the fetched EOD table only holds dates of the range). -/
theorem summary_dates_denominator (nh : String → String → List BrokerRow)
    (fullDf : List EodRow) (sel startDate : String) (dateRange : List String)
    (singleDay : Bool) (hdf : ∀ r ∈ fullDf, r.date ∈ dateRange) :
    (∀ b ∈ all_brokers nh sel (summary_dates singleDay startDate dateRange),
        b.date ∈ summary_dates singleDay startDate dateRange) ∧
    (∀ d ∈ summary_dates singleDay startDate dateRange, ∀ b ∈ nh sel d,
        { b with date := d } ∈ all_brokers nh sel (summary_dates singleDay startDate dateRange)) ∧
    (total_symbol_eod_volume fullDf sel singleDay startDate =
      ((fullDf.filter (fun r => decide (r.symbol = sel ∧
          r.date ∈ summary_dates singleDay startDate dateRange))).map
        (·.sharevolume)).sum) := by
  refine ⟨?_, ?_, ?_⟩
  · intro b hb
    rw [all_brokers, List.mem_flatten] at hb
    obtain ⟨l, hl, hbl⟩ := hb
    obtain ⟨d, hd, rfl⟩ := List.mem_map.mp hl
    obtain ⟨b0, hb0, rfl⟩ := List.mem_map.mp hbl
    simpa using hd
  · intro d hd b hb
    rw [all_brokers, List.mem_flatten]
    exact ⟨_, List.mem_map.mpr ⟨d, hd, rfl⟩, List.mem_map.mpr ⟨b, hb, rfl⟩⟩
  · cases singleDay with
    | true =>
      simp only [total_symbol_eod_volume, summary_dates, if_true]
      have heq : fullDf.filter (fun r => decide (r.symbol = sel ∧ r.date = startDate)) =
          fullDf.filter (fun r => decide (r.symbol = sel ∧ r.date ∈ [startDate])) :=
        List.filter_congr (fun a ha => by simp)
      rw [heq]
    | false =>
      simp only [total_symbol_eod_volume, summary_dates, if_false,
        Bool.false_eq_true]
      have heq : fullDf.filter (fun r => decide (r.symbol = sel)) =
          fullDf.filter (fun r => decide (r.symbol = sel ∧ r.date ∈ dateRange)) :=
        List.filter_congr (fun a ha => by simp [hdf a ha])
      rw [heq]

/-- Witness for C10 at a concrete multi-day run: one EOD row on d1, the
calendar range d1..d2. -/
theorem summary_dates_denominator_witness :
    (∀ b ∈ all_brokers nhW "S" (summary_dates false "d1" ["d1", "d2"]),
        b.date ∈ summary_dates false "d1" ["d1", "d2"]) ∧
    (∀ d ∈ summary_dates false "d1" ["d1", "d2"], ∀ b ∈ nhW "S" d,
        { b with date := d } ∈ all_brokers nhW "S" (summary_dates false "d1" ["d1", "d2"])) ∧
    (total_symbol_eod_volume fullDfW "S" false "d1" =
      ((fullDfW.filter (fun r => decide (r.symbol = "S" ∧
          r.date ∈ summary_dates false "d1" ["d1", "d2"]))).map
        (·.sharevolume)).sum) :=
  summary_dates_denominator nhW fullDfW "S" "d1" ["d1", "d2"] false
    (by simp [fullDfW])

/-- Sanity check of the embedding against the specification's worked
scenario: volumes 100,100,100,100,500 give mean 180, and the 500 day is
the single candidate with `vol_percent` 177.78 under the scenario's
filters (minPercent 80, maxPercent 1000). -/
theorem scenario_ranged_single_candidate :
    rangedSpikes
      { minPrice := 0, maxPrice := 1000, minShares := 0,
        minPercent := 80, maxPercent := 1000 }
      [⟨"X", "d1", 100, 1⟩, ⟨"X", "d2", 100, 1⟩, ⟨"X", "d3", 100, 1⟩,
       ⟨"X", "d4", 100, 1⟩, ⟨"X", "d5", 500, 1⟩] =
      [⟨⟨"X", "d5", 500, 1⟩, 180, 17778 / 100⟩] := by
  norm_num [rangedSpikes, rangedFlag, meanVolume, maxVolume, mean, listMax,
    volPercentOf, round2, roundHalfEven, List.filterMap]

/-- Sanity check of the embedding against the specification's second
scenario: raising minPercent to 200 leaves no candidate (177.78 < 200). -/
theorem scenario_ranged_no_candidate :
    rangedSpikes
      { minPrice := 0, maxPrice := 1000, minShares := 0,
        minPercent := 200, maxPercent := 1000 }
      [⟨"X", "d1", 100, 1⟩, ⟨"X", "d2", 100, 1⟩, ⟨"X", "d3", 100, 1⟩,
       ⟨"X", "d4", 100, 1⟩, ⟨"X", "d5", 500, 1⟩] = [] := by
  norm_num [rangedSpikes, rangedFlag, meanVolume, maxVolume, mean, listMax,
    volPercentOf, round2, roundHalfEven, List.filterMap]
